import Mathlib

/-!
# Verification of the universal function profiler

A shallow embedding of `src/profiler/universal_profiler.py` (class
`FunctionProfiler` and the surrounding `profile_script` driver).

Modelling choices:
* Python floats (timestamps, cpu%, memory MB) are embedded as `ℚ`;
  the claims under scrutiny are exact arithmetic identities, stated and
  proved over exact rationals.
* Python `dict` / `defaultdict` objects are embedded as association
  lists `List (String × α)` with unique keys, preserving insertion
  order (Python dicts are insertion-ordered).  The `defaultdict`
  read-modify-write pattern `d[k] op= v` is `dictUpdate`, and a bare
  `defaultdict` subscript read (which inserts the default when the key
  is missing) is `ddGet`, which returns the possibly-grown dictionary.
* `float('inf')` (the initial `first_seen`) is embedded as
  `Option ℚ` with `none` standing for +infinity.
* `list(set(...))` produces the deduplicated elements in an arbitrary
  order; it is embedded as `List.dedup`, and the claims about it are
  stated purely in terms of set semantics (membership and nodup).
-/

/-- One captured reading: (timestamp, cpuPercent, memoryMB). -/
abbrev Sample : Type := ℚ × ℚ × ℚ

/-- Key test for an association-list entry. -/
def keyEq {α : Type} (k : String) (p : String × α) : Bool := p.1 == k

/-- In-place update of one entry (identity on entries with other keys). -/
def updEntry {α : Type} (k : String) (f : α → α) (p : String × α) : String × α :=
  if p.1 == k then (p.1, f p.2) else p

/-- Association-list lookup, the embedding of a Python dict read `m[k]`
(first matching key; with unique keys this is exactly the dict entry). -/
def alookup {α : Type} (m : List (String × α)) (k : String) : Option α :=
  (m.find? (keyEq k)).map (fun p => p.2)

/-- Dict read with a default, the embedding of `m.get(k, d)` (which does
not mutate, even on a `defaultdict`). -/
def lookupD {α : Type} (m : List (String × α)) (k : String) (d : α) : α :=
  (alookup m k).getD d

/-- The `defaultdict` read-modify-write pattern `m[k] = f(m[k])` with
default `d`: update the entry in place when the key is present,
otherwise append a fresh entry holding `f d` (Python dicts append new
keys at the end). -/
def dictUpdate {α : Type} (m : List (String × α)) (k : String) (d : α) (f : α → α) :
    List (String × α) :=
  if m.any (keyEq k) then m.map (updEntry k f)
  else m ++ [(k, f d)]

/-- `self.call_counts[func_id] += 1` on the `defaultdict(int)`. -/
def incrCount (m : List (String × Nat)) (k : String) : List (String × Nat) :=
  dictUpdate m k 0 (fun n => n + 1)

/-- `self.function_stats[func_id].append(v)` on the `defaultdict(list)`. -/
def dictAppend (m : List (String × List Sample)) (k : String) (v : Sample) :
    List (String × List Sample) :=
  dictUpdate m k [] (fun l => l ++ [v])

/-- A bare `defaultdict(list)` subscript read `m[k]`: returns the stored
list, inserting an empty list for a missing key (this is the one place
where a read mutates the dictionary). -/
def ddGet (m : List (String × List Sample)) (k : String) :
    List Sample × List (String × List Sample) :=
  match m.find? (keyEq k) with
  | some p => (p.2, m)
  | none => ([], m ++ [(k, [])])

/-- Python `str.startswith`, as a structurally recursive character-list
test (the library `String.startsWith` is extensionally the same but is
defined by well-founded recursion, which the kernel cannot evaluate). -/
def charsLead : List Char → List Char → Bool
  | [], _ => true
  | _ :: _, [] => false
  | c :: cs, d :: ds => c = d && charsLead cs ds

/-- `filename.startswith(target)`. -/
def pyStartsWith (s pre : String) : Bool := charsLead pre.data s.data

/-- The characters after the last slash (empty when the path ends in a
slash), accumulating the current component in reverse. -/
def basenameAux : List Char → List Char → List Char
  | [], acc => acc.reverse
  | c :: cs, acc => if c = '/' then basenameAux cs [] else basenameAux cs (c :: acc)

/-- `os.path.basename` (the component after the last slash). -/
def basename (p : String) : String := ⟨basenameAux p.data []⟩

/-- The f-string `f"{os.path.basename(filename)}:{func_name}:{lineno}"`
building a FunctionIdentifier. -/
def mkFuncId (filename funcName : String) (lineno : Nat) : String :=
  basename filename ++ ":" ++ funcName ++ ":" ++ toString lineno

/-- The mutable state of a `FunctionProfiler` instance: `function_stats`
(FunctionSampleSeries), `call_stack` (CallStack), `call_counts`
(CallCounters) and `per_second_log` (the raw per-tick log, with the
timestamp kept as a rational rather than a formatted string). -/
structure ProfilerState where
  function_stats : List (String × List Sample)
  call_stack : List String
  call_counts : List (String × Nat)
  per_second_log : List (ℚ × ℚ × ℚ × List String)
deriving Repr, DecidableEq

/-- The freshly-constructed profiler: all containers empty. -/
def initState : ProfilerState := ⟨[], [], [], []⟩

/-- `FunctionProfiler.function_enter`: discard frames outside the target
script and the `<module>` pseudo-frame; otherwise push the identifier
onto the call stack (list append = tail push) and bump its counter. -/
def function_enter (target : String) (st : ProfilerState)
    (filename funcName : String) (lineno : Nat) : ProfilerState :=
  if ¬ pyStartsWith filename target then st
  else if funcName = "<module>" then st
  else
    let func_id := mkFuncId filename funcName lineno
    { st with
      call_stack := st.call_stack ++ [func_id],
      call_counts := incrCount st.call_counts func_id }

/-- `self.call_stack.reverse(); self.call_stack.remove(func_id);
self.call_stack.reverse()` — removes the tail-most occurrence. -/
def removeTailOcc (l : List String) (x : String) : List String :=
  (l.reverse.erase x).reverse

/-- `FunctionProfiler.function_exit`: same frame filters; when the
identifier is on the stack, remove its tail-most occurrence, otherwise
do nothing. Counters are never touched. -/
def function_exit (target : String) (st : ProfilerState)
    (filename funcName : String) (lineno : Nat) : ProfilerState :=
  if ¬ pyStartsWith filename target then st
  else if funcName = "<module>" then st
  else
    let func_id := mkFuncId filename funcName lineno
    if func_id ∈ st.call_stack then
      { st with call_stack := removeTailOcc st.call_stack func_id }
    else st

/-- The Sampler's per-tick snapshot
`list(set(self.call_stack)) if self.call_stack else ['<main>']`. -/
def snapshotActive (stack : List String) : List String :=
  if stack.isEmpty then ["<main>"] else stack.dedup

/-- One iteration of the `start_monitoring` loop body, given the metric
readings of this tick: fold the sample into every active function's
series and append the raw log entry. -/
def samplerTick (st : ProfilerState) (t cpu mem : ℚ) : ProfilerState :=
  let active := snapshotActive st.call_stack
  { st with
    function_stats :=
      active.foldl (fun m f => dictAppend m f (t, cpu, mem)) st.function_stats,
    per_second_log := st.per_second_log ++ [(t, cpu, mem, active)] }

/-- An observable event of a run: a hook enter/exit callback (carrying
the raw frame data `(co_filename, co_name, f_lineno)`) or a sampler
tick (carrying that tick's metric readings). -/
inductive Event where
  | enter (filename funcName : String) (lineno : Nat)
  | exit (filename funcName : String) (lineno : Nat)
  | tick (t cpu mem : ℚ)
deriving Repr, DecidableEq

/-- Dispatch one event to the profiler (the `tracer` callback for
enter/exit, the monitoring loop body for ticks). -/
def step (target : String) (st : ProfilerState) : Event → ProfilerState
  | .enter f n l => function_enter target st f n l
  | .exit f n l => function_exit target st f n l
  | .tick t c m => samplerTick st t c m

/-- Replay a whole event sequence from a given state. -/
def runFrom (target : String) (st : ProfilerState) : List Event → ProfilerState
  | [] => st
  | e :: es => runFrom target (step target st e) es

/-- The per-function accumulator record built by `get_aggregated_stats`
(the `defaultdict(lambda: {...})` value shape, with the `avg_cpu` /
`avg_mem` fields that the second loop adds carried as ordinary fields
initialised to 0; `first_seen = none` stands for `float('inf')`). -/
structure AggEntry where
  calls : Nat
  total_time : ℚ
  total_cpu : ℚ
  max_cpu : ℚ
  total_mem : ℚ
  max_mem : ℚ
  first_seen : Option ℚ
  last_seen : ℚ
  avg_cpu : ℚ
  avg_mem : ℚ
deriving Repr, DecidableEq

/-- The default entry produced by the `defaultdict` factory. -/
def initAgg : AggEntry :=
  { calls := 0, total_time := 0, total_cpu := 0, max_cpu := 0,
    total_mem := 0, max_mem := 0, first_seen := none, last_seen := 0,
    avg_cpu := 0, avg_mem := 0 }

/-- `min(float('inf'), b) = b`; `none` is the infinity. -/
def minInf (a : Option ℚ) (b : ℚ) : Option ℚ :=
  match a with
  | none => some b
  | some x => some (min x b)

/-- Python `sum` over a list of floats (left fold from 0). -/
def pysum (l : List ℚ) : ℚ := l.foldl (fun a b => a + b) 0

/-- Python `max` over a list of floats; only ever applied to nonempty
lists in the source (Python would raise on `[]`; we pick 0 there). -/
def pymax : List ℚ → ℚ
  | [] => 0
  | x :: xs => xs.foldl max x

/-- The body of the first loop of `get_aggregated_stats` for one
`(func_id, samples)` item with `samples` nonempty, applied to the
current accumulator entry for `func_id`. -/
def aggUpdate (counts : List (String × Nat)) (func_id : String)
    (s0 : Sample) (rest : List Sample) (e : AggEntry) : AggEntry :=
  let samples := s0 :: rest
  let first_time := s0.1
  let last_time := (samples.getLast (List.cons_ne_nil s0 rest)).1
  let cpu_values := samples.map (fun s => s.2.1)
  let mem_values := samples.map (fun s => s.2.2)
  { e with
    calls := lookupD counts func_id 0,
    first_seen := minInf e.first_seen first_time,
    last_seen := max e.last_seen last_time,
    total_time := e.total_time + (last_time - first_time),
    total_cpu := e.total_cpu + pysum cpu_values,
    max_cpu := pymax cpu_values,
    total_mem := e.total_mem + pysum mem_values,
    max_mem := pymax mem_values }

/-- One iteration of the first loop of `get_aggregated_stats`:
`for func_id, samples in self.function_stats.items(): if not samples:
continue; ...`. -/
def aggStep (counts : List (String × Nat)) (agg : List (String × AggEntry)) :
    String × List Sample → List (String × AggEntry)
  | (_, []) => agg
  | (func_id, s0 :: rest) => dictUpdate agg func_id initAgg (aggUpdate counts func_id s0 rest)

/-- The body of the second loop of `get_aggregated_stats` for one key,
given `sample_count`. -/
def avgUpdate (n : Nat) (e : AggEntry) : AggEntry :=
  if n > 0 then { e with avg_cpu := e.total_cpu / (n : ℚ), avg_mem := e.total_mem / (n : ℚ) }
  else { e with avg_cpu := 0, avg_mem := 0 }

/-- The second loop of `get_aggregated_stats`:
`for func_id in aggregated: sample_count = len(self.function_stats[func_id]); ...`.
The `self.function_stats[func_id]` subscript is a `defaultdict` read, so
the (possibly grown) `function_stats` is threaded through. -/
def avgLoop (ks : List String) (fs : List (String × List Sample))
    (agg : List (String × AggEntry)) :
    List (String × List Sample) × List (String × AggEntry) :=
  match ks with
  | [] => (fs, agg)
  | k :: ks₂ =>
      let r := ddGet fs k
      avgLoop ks₂ r.2 (dictUpdate agg k initAgg (avgUpdate r.1.length))

/-- `FunctionProfiler.get_aggregated_stats`, as a function of the two
dictionaries it reads. Returns the aggregated summary together with the
`function_stats` dictionary as it stands afterwards (the second loop's
`defaultdict` reads could in principle grow it). -/
def get_aggregated_stats (fs : List (String × List Sample))
    (counts : List (String × Nat)) :
    List (String × AggEntry) × List (String × List Sample) :=
  let agg1 := fs.foldl (aggStep counts) []
  let r := avgLoop (agg1.map Prod.fst) fs agg1
  (r.2, r.1)

/-- The sort in `profile_script`:
`sorted(stats.items(), key=lambda x: -x[1]['total_time'])` — Python's
stable sort, ascending on the negated total time. -/
def sortedStats (stats : List (String × AggEntry)) : List (String × AggEntry) :=
  stats.mergeSort (fun a b => decide (-a.2.total_time ≤ -b.2.total_time))

/-! ## Association-list dictionary lemmas -/

theorem keyEq_true {α : Type} (k : String) (p : String × α) :
    keyEq k p = true ↔ p.1 = k := by
  simp [keyEq]

theorem keyEq_false {α : Type} (k : String) (p : String × α) :
    keyEq k p = false ↔ p.1 ≠ k := by
  simp [keyEq]

theorem updEntry_fst {α : Type} (k : String) (f : α → α) (p : String × α) :
    (updEntry k f p).1 = p.1 := by
  unfold updEntry
  by_cases h : p.1 = k <;> simp [h]

theorem updEntry_of_eq {α : Type} (k : String) (f : α → α) (p : String × α)
    (h : p.1 = k) : updEntry k f p = (p.1, f p.2) := by
  simp [updEntry, h]

theorem updEntry_of_ne {α : Type} (k : String) (f : α → α) (p : String × α)
    (h : p.1 ≠ k) : updEntry k f p = p := by
  simp [updEntry, h]

theorem alookup_nil {α : Type} (k : String) :
    alookup ([] : List (String × α)) k = none := rfl

theorem alookup_cons_self {α : Type} (p : String × α) (m : List (String × α))
    (k : String) (h : p.1 = k) : alookup (p :: m) k = some p.2 := by
  simp [alookup, List.find?_cons, (keyEq_true k p).mpr h]

theorem alookup_cons_ne {α : Type} (p : String × α) (m : List (String × α))
    (k : String) (h : p.1 ≠ k) : alookup (p :: m) k = alookup m k := by
  have hk : keyEq k p = false := (keyEq_false k p).mpr h
  simp [alookup, List.find?_cons, hk]

theorem alookup_append {α : Type} (m₁ m₂ : List (String × α)) (k : String) :
    alookup (m₁ ++ m₂) k = (alookup m₁ k).or (alookup m₂ k) := by
  simp only [alookup, List.find?_append]
  cases m₁.find? (keyEq k) <;> simp

theorem alookup_eq_none_iff {α : Type} (m : List (String × α)) (k : String) :
    alookup m k = none ↔ k ∉ m.map Prod.fst := by
  induction m with
  | nil => simp [alookup_nil]
  | cons p m ih =>
      by_cases h : p.1 = k
      · simp [alookup_cons_self p m k h, h]
      · rw [alookup_cons_ne p m k h, ih, List.map_cons]
        constructor
        · intro hk hmem
          rcases List.mem_cons.mp hmem with h1 | h2
          · exact h h1.symm
          · exact hk h2
        · intro hk hmem
          exact hk (List.mem_cons_of_mem _ hmem)

theorem alookup_map_upd_self {α : Type} (m : List (String × α)) (k : String) (f : α → α) :
    alookup (m.map (updEntry k f)) k = (alookup m k).map f := by
  induction m with
  | nil => rfl
  | cons p m ih =>
      by_cases h : p.1 = k
      · rw [List.map_cons, updEntry_of_eq k f p h, alookup_cons_self p m k h,
          alookup_cons_self (p.1, f p.2) (List.map (updEntry k f) m) k h]
        rfl
      · rw [List.map_cons, updEntry_of_ne k f p h,
          alookup_cons_ne p _ k h, alookup_cons_ne p m k h, ih]

theorem alookup_map_upd_ne {α : Type} (m : List (String × α)) (k k₂ : String) (f : α → α)
    (h : k₂ ≠ k) :
    alookup (m.map (updEntry k f)) k₂ = alookup m k₂ := by
  induction m with
  | nil => rfl
  | cons p m ih =>
      by_cases hp : p.1 = k₂
      · have hpk : p.1 ≠ k := by rw [hp]; exact h
        rw [List.map_cons, updEntry_of_ne k f p hpk,
          alookup_cons_self p _ k₂ hp, alookup_cons_self p m k₂ hp]
      · rw [List.map_cons]
        have h₂ : (updEntry k f p).1 ≠ k₂ := by rw [updEntry_fst]; exact hp
        rw [alookup_cons_ne _ _ k₂ h₂, alookup_cons_ne p m k₂ hp, ih]

theorem any_keys_iff {α : Type} (m : List (String × α)) (k : String) :
    (m.any (keyEq k)) = true ↔ k ∈ m.map Prod.fst := by
  simp only [List.any_eq_true, List.mem_map]
  constructor
  · rintro ⟨p, hp, hk⟩
    exact ⟨p, hp, (keyEq_true k p).mp hk⟩
  · rintro ⟨p, hp, hk⟩
    exact ⟨p, hp, (keyEq_true k p).mpr hk⟩

theorem alookup_isSome_of_mem_keys {α : Type} (m : List (String × α)) (k : String)
    (h : k ∈ m.map Prod.fst) : ∃ v, alookup m k = some v := by
  cases hv : alookup m k with
  | none => exact absurd h ((alookup_eq_none_iff m k).mp hv)
  | some v => exact ⟨v, rfl⟩

theorem keys_map_upd {α : Type} (m : List (String × α)) (k : String) (f : α → α) :
    (m.map (updEntry k f)).map Prod.fst = m.map Prod.fst := by
  rw [List.map_map]
  exact List.map_congr_left (fun p _ => updEntry_fst k f p)

theorem alookup_dictUpdate_self {α : Type} (m : List (String × α)) (k : String)
    (d : α) (f : α → α) :
    alookup (dictUpdate m k d f) k = some (f (lookupD m k d)) := by
  unfold dictUpdate
  by_cases h : (m.any (keyEq k)) = true
  · rcases alookup_isSome_of_mem_keys m k ((any_keys_iff m k).mp h) with ⟨v, hv⟩
    rw [if_pos h, alookup_map_upd_self, hv]
    simp [lookupD, hv]
  · have hk : k ∉ m.map Prod.fst := fun hm => h ((any_keys_iff m k).mpr hm)
    have hnone : alookup m k = none := (alookup_eq_none_iff m k).mpr hk
    rw [if_neg h, alookup_append, hnone, alookup_cons_self (k, f d) [] k rfl]
    simp [lookupD, hnone]

theorem alookup_dictUpdate_ne {α : Type} (m : List (String × α)) (k k₂ : String)
    (d : α) (f : α → α) (h : k₂ ≠ k) :
    alookup (dictUpdate m k d f) k₂ = alookup m k₂ := by
  unfold dictUpdate
  by_cases hm : (m.any (keyEq k)) = true
  · rw [if_pos hm, alookup_map_upd_ne m k k₂ f h]
  · rw [if_neg hm, alookup_append,
      alookup_cons_ne (k, f d) [] k₂ (fun e => h e.symm), alookup_nil]
    cases alookup m k₂ <;> rfl

theorem mem_keys_dictUpdate {α : Type} (m : List (String × α)) (k k₂ : String)
    (d : α) (f : α → α) :
    k₂ ∈ (dictUpdate m k d f).map Prod.fst ↔ k₂ ∈ m.map Prod.fst ∨ k₂ = k := by
  unfold dictUpdate
  by_cases hm : (m.any (keyEq k)) = true
  · have hk := (any_keys_iff m k).mp hm
    rw [if_pos hm, keys_map_upd]
    constructor
    · exact Or.inl
    · rintro (h | rfl)
      · exact h
      · exact hk
  · rw [if_neg hm]
    simp

theorem nodup_keys_dictUpdate {α : Type} (m : List (String × α)) (k : String)
    (d : α) (f : α → α) (h : (m.map Prod.fst).Nodup) :
    ((dictUpdate m k d f).map Prod.fst).Nodup := by
  unfold dictUpdate
  by_cases hm : (m.any (keyEq k)) = true
  · rw [if_pos hm, keys_map_upd]
    exact h
  · have hk : k ∉ m.map Prod.fst := fun hmem => hm ((any_keys_iff m k).mpr hmem)
    rw [if_neg hm]
    simp [List.nodup_append, h, hk]

/-! ## Characterising `get_aggregated_stats` -/

theorem alookup_foldl_aggStep_of_not_mem (counts : List (String × Nat)) (id : String) :
    ∀ (items : List (String × List Sample)) (agg : List (String × AggEntry)),
      id ∉ items.map Prod.fst →
      alookup (items.foldl (aggStep counts) agg) id = alookup agg id := by
  intro items
  induction items with
  | nil => intro agg _; rfl
  | cons item items ih =>
      intro agg h
      rw [List.map_cons] at h
      have h1 : item.1 ≠ id := fun e => h (by rw [e]; exact List.mem_cons_self _ _)
      have h2 : id ∉ items.map Prod.fst := fun hm => h (List.mem_cons_of_mem _ hm)
      rw [List.foldl_cons, ih _ h2]
      rcases item with ⟨k, samples⟩
      cases samples with
      | nil => rfl
      | cons s0 rest =>
          exact alookup_dictUpdate_ne agg k id initAgg _ (fun e => h1 e.symm)

theorem mem_keys_foldl_aggStep (counts : List (String × Nat)) (id : String) :
    ∀ (items : List (String × List Sample)) (agg : List (String × AggEntry)),
      id ∈ (items.foldl (aggStep counts) agg).map Prod.fst →
      id ∈ agg.map Prod.fst ∨ id ∈ items.map Prod.fst := by
  intro items
  induction items with
  | nil => intro agg h; exact Or.inl h
  | cons item items ih =>
      intro agg h
      rw [List.foldl_cons] at h
      rcases ih _ h with h1 | h2
      · rcases item with ⟨k, samples⟩
        cases samples with
        | nil => exact Or.inl h1
        | cons s0 rest =>
            rcases (mem_keys_dictUpdate agg k id initAgg _).mp h1 with h3 | rfl
            · exact Or.inl h3
            · exact Or.inr (by simp)
      · exact Or.inr (List.mem_cons_of_mem _ h2)

theorem nodup_keys_foldl_aggStep (counts : List (String × Nat)) :
    ∀ (items : List (String × List Sample)) (agg : List (String × AggEntry)),
      (agg.map Prod.fst).Nodup →
      ((items.foldl (aggStep counts) agg).map Prod.fst).Nodup := by
  intro items
  induction items with
  | nil => intro agg h; exact h
  | cons item items ih =>
      intro agg h
      rw [List.foldl_cons]
      apply ih
      rcases item with ⟨k, samples⟩
      cases samples with
      | nil => exact h
      | cons s0 rest => exact nodup_keys_dictUpdate agg k initAgg _ h

theorem ddGet_snd_alookup (fs : List (String × List Sample)) (k id : String)
    (s : List Sample) (h : alookup fs id = some s) :
    alookup (ddGet fs k).2 id = some s := by
  unfold ddGet
  cases hf : fs.find? (keyEq k) with
  | some p => exact h
  | none =>
      rw [alookup_append, h]
      rfl

theorem ddGet_fst (fs : List (String × List Sample)) (id : String)
    (s : List Sample) (h : alookup fs id = some s) :
    (ddGet fs id).1 = s := by
  unfold ddGet
  cases hf : fs.find? (keyEq id) with
  | some p =>
      rw [alookup, hf] at h
      exact (Option.some_inj.mp h)
  | none =>
      rw [alookup, hf] at h
      cases h

theorem avgLoop_snd_of_not_mem (id : String) :
    ∀ (ks : List String) (fs : List (String × List Sample))
      (agg : List (String × AggEntry)), id ∉ ks →
      alookup (avgLoop ks fs agg).2 id = alookup agg id := by
  intro ks
  induction ks with
  | nil => intro fs agg _; rfl
  | cons k ks ih =>
      intro fs agg h
      have h1 : id ≠ k := fun e => h (by rw [e]; exact List.mem_cons_self _ _)
      have h2 : id ∉ ks := fun hm => h (List.mem_cons_of_mem _ hm)
      rw [avgLoop, ih _ _ h2, alookup_dictUpdate_ne agg k id initAgg _ h1]

theorem avgLoop_main (id : String) (s : List Sample) :
    ∀ (A B : List String) (fs : List (String × List Sample))
      (agg : List (String × AggEntry)) (e : AggEntry),
      id ∉ A → id ∉ B →
      alookup fs id = some s → alookup agg id = some e →
      alookup (avgLoop (A ++ id :: B) fs agg).2 id = some (avgUpdate s.length e) := by
  intro A
  induction A with
  | nil =>
      intro B fs agg e _ hB hfs hagg
      rw [List.nil_append, avgLoop, ddGet_fst fs id s hfs,
        avgLoop_snd_of_not_mem id B _ _ hB,
        alookup_dictUpdate_self agg id initAgg _]
      simp [lookupD, hagg]
  | cons a A ih =>
      intro B fs agg e hA hB hfs hagg
      have h1 : id ≠ a := fun e₂ => hA (by rw [e₂]; exact List.mem_cons_self _ _)
      have h2 : id ∉ A := fun hm => hA (List.mem_cons_of_mem _ hm)
      rw [List.cons_append, avgLoop]
      exact ih B _ _ e h2 hB (ddGet_snd_alookup fs a id s hfs)
        (by rw [alookup_dictUpdate_ne agg a id initAgg _ h1]; exact hagg)

theorem mem_of_alookup {α : Type} (m : List (String × α)) (id : String) (v : α)
    (h : alookup m id = some v) : (id, v) ∈ m := by
  unfold alookup at h
  cases hf : m.find? (keyEq id) with
  | none => rw [hf] at h; cases h
  | some p =>
      rw [hf] at h
      have hp : p.1 = id := (keyEq_true id p).mp (List.find?_some hf)
      have hv : p.2 = v := Option.some_inj.mp h
      have : p = (id, v) := by
        rcases p with ⟨a, b⟩
        simp only at hp hv
        rw [hp, hv]
      rw [← this]
      exact List.mem_of_find?_eq_some hf

theorem split_of_alookup_nodup {α : Type} (m : List (String × α)) (id : String) (v : α)
    (hnd : (m.map Prod.fst).Nodup) (h : alookup m id = some v) :
    ∃ pre post, m = pre ++ (id, v) :: post ∧
      id ∉ pre.map Prod.fst ∧ id ∉ post.map Prod.fst := by
  rcases List.append_of_mem (mem_of_alookup m id v h) with ⟨pre, post, rfl⟩
  refine ⟨pre, post, rfl, ?_, ?_⟩
  · intro hpre
    have := (List.nodup_append.mp (by simpa using hnd)).2.2
    exact this hpre (List.mem_cons_self _ _)
  · have := (List.nodup_append.mp (by simpa using hnd)).2.1
    exact (List.nodup_cons.mp this).1

/-- The summary entry `get_aggregated_stats` produces for a function
whose captured series is `s0 :: rest`. -/
def summaryEntry (counts : List (String × Nat)) (id : String)
    (s0 : Sample) (rest : List Sample) : AggEntry :=
  avgUpdate (rest.length + 1) (aggUpdate counts id s0 rest initAgg)

theorem agg_master_not_mem (fs : List (String × List Sample))
    (counts : List (String × Nat)) (id : String)
    (h : id ∉ fs.map Prod.fst) :
    alookup (get_aggregated_stats fs counts).1 id = none := by
  unfold get_aggregated_stats
  have h1 : alookup (fs.foldl (aggStep counts) []) id = none :=
    alookup_foldl_aggStep_of_not_mem counts id fs [] h
  have h2 : id ∉ (fs.foldl (aggStep counts) []).map Prod.fst :=
    (alookup_eq_none_iff _ id).mp h1
  rw [avgLoop_snd_of_not_mem id _ _ _ h2]
  exact h1

theorem agg_master_nil (fs : List (String × List Sample))
    (counts : List (String × Nat)) (id : String)
    (hnd : (fs.map Prod.fst).Nodup) (h : alookup fs id = some []) :
    alookup (get_aggregated_stats fs counts).1 id = none := by
  rcases split_of_alookup_nodup fs id [] hnd h with ⟨pre, post, rfl, hpre, hpost⟩
  unfold get_aggregated_stats
  have h1 : alookup ((pre ++ (id, ([] : List Sample)) :: post).foldl (aggStep counts) []) id
      = none := by
    rw [List.foldl_append, List.foldl_cons]
    have hstep : aggStep counts (pre.foldl (aggStep counts) []) (id, []) =
        pre.foldl (aggStep counts) [] := rfl
    rw [hstep, alookup_foldl_aggStep_of_not_mem counts id post _ hpost]
    exact alookup_foldl_aggStep_of_not_mem counts id pre [] hpre
  have h2 : id ∉ ((pre ++ (id, ([] : List Sample)) :: post).foldl
      (aggStep counts) []).map Prod.fst := (alookup_eq_none_iff _ id).mp h1
  rw [avgLoop_snd_of_not_mem id _ _ _ h2]
  exact h1

theorem agg_master_cons (fs : List (String × List Sample))
    (counts : List (String × Nat)) (id : String) (s0 : Sample) (rest : List Sample)
    (hnd : (fs.map Prod.fst).Nodup) (h : alookup fs id = some (s0 :: rest)) :
    alookup (get_aggregated_stats fs counts).1 id
      = some (summaryEntry counts id s0 rest) := by
  rcases split_of_alookup_nodup fs id (s0 :: rest) hnd h with ⟨pre, post, hfs, hpre, hpost⟩
  unfold get_aggregated_stats
  show alookup (avgLoop ((fs.foldl (aggStep counts) []).map Prod.fst) fs
    (fs.foldl (aggStep counts) [])).2 id = some (summaryEntry counts id s0 rest)
  have hprenone : alookup (pre.foldl (aggStep counts) []) id = none :=
    alookup_foldl_aggStep_of_not_mem counts id pre [] hpre
  have h1 : alookup (fs.foldl (aggStep counts) []) id
      = some (aggUpdate counts id s0 rest initAgg) := by
    rw [hfs, List.foldl_append, List.foldl_cons,
      alookup_foldl_aggStep_of_not_mem counts id post _ hpost]
    show alookup (dictUpdate (pre.foldl (aggStep counts) []) id initAgg
      (aggUpdate counts id s0 rest)) id = _
    rw [alookup_dictUpdate_self]
    simp [lookupD, hprenone]
  have hmem : id ∈ (fs.foldl (aggStep counts) []).map Prod.fst := by
    cases hmem₂ : alookup (fs.foldl (aggStep counts) []) id with
    | none => rw [hmem₂] at h1; cases h1
    | some e =>
        by_contra hc
        rw [(alookup_eq_none_iff _ id).mpr hc] at hmem₂
        cases hmem₂
  have hksnd : ((fs.foldl (aggStep counts) []).map Prod.fst).Nodup :=
    nodup_keys_foldl_aggStep counts fs [] (List.nodup_nil)
  rcases List.append_of_mem hmem with ⟨A, B, hks⟩
  have hA : id ∉ A := by
    intro hA₂
    have := (List.nodup_append.mp (hks ▸ hksnd)).2.2
    exact this hA₂ (List.mem_cons_self _ _)
  have hB : id ∉ B := by
    have := (List.nodup_append.mp (hks ▸ hksnd)).2.1
    exact (List.nodup_cons.mp this).1
  rw [hks]
  have h₃ := avgLoop_main id (s0 :: rest) A B fs (fs.foldl (aggStep counts) [])
    (aggUpdate counts id s0 rest initAgg) hA hB h h1
  rw [h₃]
  rfl

theorem ddGet_snd_of_mem (fs : List (String × List Sample)) (k : String)
    (h : k ∈ fs.map Prod.fst) : (ddGet fs k).2 = fs := by
  unfold ddGet
  rcases alookup_isSome_of_mem_keys fs k h with ⟨v, hv⟩
  unfold alookup at hv
  cases hf : fs.find? (keyEq k) with
  | some p => rfl
  | none => rw [hf] at hv; cases hv

theorem avgLoop_fst_of_subset :
    ∀ (ks : List String) (fs : List (String × List Sample))
      (agg : List (String × AggEntry)),
      (∀ k ∈ ks, k ∈ fs.map Prod.fst) → (avgLoop ks fs agg).1 = fs := by
  intro ks
  induction ks with
  | nil => intro fs agg _; rfl
  | cons k ks ih =>
      intro fs agg h
      rw [avgLoop]
      have hk : k ∈ fs.map Prod.fst := h k (List.mem_cons_self _ _)
      rw [ddGet_snd_of_mem fs k hk]
      exact ih fs _ (fun k₂ hk₂ => h k₂ (List.mem_cons_of_mem _ hk₂))

theorem getAggStats_preserves_fs (fs : List (String × List Sample))
    (counts : List (String × Nat)) :
    (get_aggregated_stats fs counts).2 = fs := by
  unfold get_aggregated_stats
  show (avgLoop ((fs.foldl (aggStep counts) []).map Prod.fst) fs
    (fs.foldl (aggStep counts) [])).1 = fs
  apply avgLoop_fst_of_subset
  intro k hk
  rcases mem_keys_foldl_aggStep counts k fs [] hk with h | h
  · exact absurd h (List.not_mem_nil k)
  · exact h

/-! ## Sums and maxima -/

theorem pysum_eq_sum (l : List ℚ) : pysum l = l.sum := by
  have key : ∀ (l : List ℚ) (a : ℚ), l.foldl (fun x y => x + y) a = a + l.sum := by
    intro l
    induction l with
    | nil => intro a; simp
    | cons x xs ih => intro a; rw [List.foldl_cons, ih, List.sum_cons]; ring
  have := key l 0
  rw [pysum, this, zero_add]

theorem pymax_cons_cons (x z : ℚ) (xs : List ℚ) :
    pymax (x :: z :: xs) = pymax (max x z :: xs) := rfl

theorem pymax_spec (xs : List ℚ) : ∀ (x : ℚ),
    pymax (x :: xs) ∈ x :: xs ∧ ∀ y ∈ x :: xs, y ≤ pymax (x :: xs) := by
  induction xs with
  | nil =>
      intro x
      refine ⟨by simp [pymax], ?_⟩
      intro y hy
      rcases List.mem_singleton.mp hy with rfl
      simp [pymax]
  | cons z xs ih =>
      intro x
      rw [pymax_cons_cons]
      rcases ih (max x z) with ⟨hmem, hbound⟩
      constructor
      · rcases List.mem_cons.mp hmem with h | h
        · rcases max_choice x z with hc | hc
          · rw [h, hc]; exact List.mem_cons_self _ _
          · rw [h, hc]; exact List.mem_cons_of_mem _ (List.mem_cons_self _ _)
        · exact List.mem_cons_of_mem _ (List.mem_cons_of_mem _ h)
      · intro y hy
        rcases List.mem_cons.mp hy with rfl | hy₂
        · exact le_trans (le_max_left y z) (hbound _ (List.mem_cons_self _ _))
        · rcases List.mem_cons.mp hy₂ with rfl | hy₃
          · exact le_trans (le_max_right x y) (hbound _ (List.mem_cons_self _ _))
          · exact hbound y (List.mem_cons_of_mem _ hy₃)

/-! ## Per-event effects on the state components -/

theorem function_enter_cases (target filename funcName : String) (lineno : Nat)
    (st : ProfilerState) :
    (function_enter target st filename funcName lineno = st ∧
      (¬ pyStartsWith filename target ∨ funcName = "<module>")) ∨
    (function_enter target st filename funcName lineno =
      { st with
        call_stack := st.call_stack ++ [mkFuncId filename funcName lineno],
        call_counts := incrCount st.call_counts (mkFuncId filename funcName lineno) } ∧
      pyStartsWith filename target ∧ funcName ≠ "<module>") := by
  unfold function_enter
  by_cases h1 : ¬ pyStartsWith filename target
  · exact Or.inl ⟨if_pos h1, Or.inl h1⟩
  · rw [if_neg h1]
    by_cases h2 : funcName = "<module>"
    · exact Or.inl ⟨if_pos h2, Or.inr h2⟩
    · rw [if_neg h2]
      exact Or.inr ⟨rfl, not_not.mp h1, h2⟩

theorem function_exit_cases (target filename funcName : String) (lineno : Nat)
    (st : ProfilerState) :
    function_exit target st filename funcName lineno = st ∨
    (function_exit target st filename funcName lineno =
      { st with
        call_stack := removeTailOcc st.call_stack (mkFuncId filename funcName lineno) } ∧
      mkFuncId filename funcName lineno ∈ st.call_stack) := by
  unfold function_exit
  by_cases h1 : ¬ pyStartsWith filename target
  · exact Or.inl (if_pos h1)
  · rw [if_neg h1]
    by_cases h2 : funcName = "<module>"
    · exact Or.inl (if_pos h2)
    · rw [if_neg h2]
      show (if mkFuncId filename funcName lineno ∈ st.call_stack then _ else st) = st ∨ _
      by_cases h3 : mkFuncId filename funcName lineno ∈ st.call_stack
      · exact Or.inr ⟨if_pos h3, h3⟩
      · exact Or.inl (if_neg h3)

theorem function_exit_counts (target filename funcName : String) (lineno : Nat)
    (st : ProfilerState) :
    (function_exit target st filename funcName lineno).call_counts = st.call_counts := by
  rcases function_exit_cases target filename funcName lineno st with h | ⟨h, _⟩ <;> rw [h]

theorem function_exit_stats (target filename funcName : String) (lineno : Nat)
    (st : ProfilerState) :
    (function_exit target st filename funcName lineno).function_stats
      = st.function_stats := by
  rcases function_exit_cases target filename funcName lineno st with h | ⟨h, _⟩ <;> rw [h]

theorem function_enter_stats (target filename funcName : String) (lineno : Nat)
    (st : ProfilerState) :
    (function_enter target st filename funcName lineno).function_stats
      = st.function_stats := by
  rcases function_enter_cases target filename funcName lineno st with ⟨h, _⟩ | ⟨h, _⟩ <;> rw [h]

theorem samplerTick_counts (st : ProfilerState) (t cpu mem : ℚ) :
    (samplerTick st t cpu mem).call_counts = st.call_counts := rfl

theorem samplerTick_stack (st : ProfilerState) (t cpu mem : ℚ) :
    (samplerTick st t cpu mem).call_stack = st.call_stack := rfl

/-! ## CallCounters characterisation (support for C6) -/

/-- The counter value for one identifier. -/
def counterVal (st : ProfilerState) (id : String) : Nat :=
  lookupD st.call_counts id 0

/-- Does this event count as an enter event for identifier `id` under
the source-path and module-frame filters? -/
def isEnterFor (target id : String) : Event → Bool
  | .enter f n l =>
      pyStartsWith f target && (n != "<module>") && (mkFuncId f n l == id)
  | .exit _ _ _ => false
  | .tick _ _ _ => false

/-- The number of enter events for `id` that pass the filters. -/
def countEnters (target id : String) (evs : List Event) : Nat :=
  (evs.filter (isEnterFor target id)).length

theorem lookupD_incrCount (m : List (String × Nat)) (k id : String) :
    lookupD (incrCount m k) id 0 = lookupD m id 0 + (if id = k then 1 else 0) := by
  by_cases h : id = k
  · subst h
    rw [incrCount]
    simp [lookupD, alookup_dictUpdate_self]
  · rw [incrCount]
    simp [lookupD, alookup_dictUpdate_ne m k id _ _ h, h]

theorem counterVal_step (target : String) (st : ProfilerState) (e : Event) (id : String) :
    counterVal (step target st e) id
      = counterVal st id + (if isEnterFor target id e then 1 else 0) := by
  cases e with
  | tick t c m => simp [step, counterVal, samplerTick_counts, isEnterFor]
  | exit f n l =>
      unfold counterVal
      rw [step, function_exit_counts]
      simp [isEnterFor]
  | enter f n l =>
      unfold counterVal
      rcases function_enter_cases target f n l st with ⟨h, hcond⟩ | ⟨h, hs, hm⟩
      · rw [step, h]
        have hff : isEnterFor target id (Event.enter f n l) = false := by
          rcases hcond with hc | hc
          · simp only [isEnterFor]
            simp [hc]
          · simp [isEnterFor, hc]
        rw [hff]
        simp
      · rw [step, h]
        show lookupD (incrCount st.call_counts (mkFuncId f n l)) id 0 = _
        rw [lookupD_incrCount]
        by_cases hid : id = mkFuncId f n l
        · have : isEnterFor target id (Event.enter f n l) = true := by
            simp [isEnterFor, hs, hm, hid]
          rw [this]
          simp [hid]
        · have : isEnterFor target id (Event.enter f n l) = false := by
            simp [isEnterFor, hs, hm]
            exact fun e₂ => hid e₂.symm
          rw [this]
          simp [hid]

theorem counterVal_runFrom (target id : String) :
    ∀ (evs : List Event) (st : ProfilerState),
      counterVal (runFrom target st evs) id = counterVal st id + countEnters target id evs := by
  intro evs
  induction evs with
  | nil => intro st; simp [runFrom, countEnters]
  | cons e es ih =>
      intro st
      rw [runFrom, ih, counterVal_step]
      unfold countEnters
      cases he : isEnterFor target id e
      · simp [List.filter_cons, he]
      · simp [List.filter_cons, he]
        omega

/-! ## The naive reference stack (support for C7) -/

/-- Modelled from the spec: the naive reference stack simulation of the
refinement property in §8 — push the identifier on enter, remove one
occurrence on exit, ignoring filtered-out frames and ticks. -/
def naiveStep (target : String) (stk : List String) : Event → List String
  | .enter f n l =>
      if ¬ pyStartsWith f target then stk
      else if n = "<module>" then stk
      else mkFuncId f n l :: stk
  | .exit f n l =>
      if ¬ pyStartsWith f target then stk
      else if n = "<module>" then stk
      else stk.erase (mkFuncId f n l)
  | .tick _ _ _ => stk

/-- Modelled from the spec: replay of the naive stack simulation. -/
def naiveStack (target : String) : List Event → List String → List String
  | [], stk => stk
  | e :: es, stk => naiveStack target es (naiveStep target stk e)

theorem removeTailOcc_perm_erase (l : List String) (x : String) :
    List.Perm (removeTailOcc l x) (l.erase x) := by
  unfold removeTailOcc
  exact (List.reverse_perm _).trans ((List.reverse_perm l).erase x)

theorem step_stack_perm (target : String) (st : ProfilerState) (stk : List String)
    (e : Event) (h : List.Perm st.call_stack stk) :
    List.Perm (step target st e).call_stack (naiveStep target stk e) := by
  cases e with
  | tick t c m =>
      rw [step, samplerTick_stack]
      exact h
  | enter f n l =>
      show List.Perm (function_enter target st f n l).call_stack
        (if ¬ pyStartsWith f target then stk else if n = "<module>" then stk
          else mkFuncId f n l :: stk)
      unfold function_enter
      by_cases h1 : ¬ pyStartsWith f target
      · rw [if_pos h1, if_pos h1]; exact h
      · rw [if_neg h1, if_neg h1]
        by_cases h2 : n = "<module>"
        · rw [if_pos h2, if_pos h2]; exact h
        · rw [if_neg h2, if_neg h2]
          show List.Perm (st.call_stack ++ [mkFuncId f n l]) _
          exact (List.perm_append_singleton _ _).trans (h.cons _)
  | exit f n l =>
      show List.Perm (function_exit target st f n l).call_stack
        (if ¬ pyStartsWith f target then stk else if n = "<module>" then stk
          else stk.erase (mkFuncId f n l))
      unfold function_exit
      by_cases h1 : ¬ pyStartsWith f target
      · rw [if_pos h1, if_pos h1]; exact h
      · rw [if_neg h1, if_neg h1]
        by_cases h2 : n = "<module>"
        · rw [if_pos h2, if_pos h2]; exact h
        · rw [if_neg h2, if_neg h2]
          show List.Perm (if mkFuncId f n l ∈ st.call_stack then
            { st with call_stack := removeTailOcc st.call_stack (mkFuncId f n l) }
            else st).call_stack (stk.erase (mkFuncId f n l))
          by_cases h3 : mkFuncId f n l ∈ st.call_stack
          · rw [if_pos h3]
            exact (removeTailOcc_perm_erase _ _).trans (h.erase _)
          · rw [if_neg h3]
            have h4 : mkFuncId f n l ∉ stk := fun hm => h3 (h.mem_iff.mpr hm)
            rw [List.erase_of_not_mem h4]
            exact h

theorem runFrom_stack_perm (target : String) :
    ∀ (evs : List Event) (st : ProfilerState) (stk : List String),
      List.Perm st.call_stack stk →
      List.Perm (runFrom target st evs).call_stack (naiveStack target evs stk) := by
  intro evs
  induction evs with
  | nil => intro st stk h; exact h
  | cons e es ih =>
      intro st stk h
      rw [runFrom, naiveStack]
      exact ih _ _ (step_stack_perm target st stk e h)

/-! ## Run invariants (support for C10) -/

theorem mkFuncId_ne_main (f n : String) (l : Nat) : mkFuncId f n l ≠ "<main>" := by
  intro h
  have hc : ':' ∈ (mkFuncId f n l).data := by
    unfold mkFuncId
    simp only [String.data_append]
    apply List.mem_append_left
    apply List.mem_append_right
    show ':' ∈ (":" : String).data
    decide
  rw [h] at hc
  have : ':' ∉ ("<main>" : String).data := by decide
  exact this hc

theorem nodup_keys_foldl_dictAppend (v : Sample) :
    ∀ (ks : List String) (m : List (String × List Sample)),
      (m.map Prod.fst).Nodup →
      ((ks.foldl (fun m₂ f => dictAppend m₂ f v) m).map Prod.fst).Nodup := by
  intro ks
  induction ks with
  | nil => intro m h; exact h
  | cons k ks ih =>
      intro m h
      rw [List.foldl_cons]
      exact ih _ (nodup_keys_dictUpdate m k [] _ h)

theorem step_stats_nodup (target : String) (st : ProfilerState) (e : Event)
    (h : (st.function_stats.map Prod.fst).Nodup) :
    ((step target st e).function_stats.map Prod.fst).Nodup := by
  cases e with
  | enter f n l => rw [step, function_enter_stats]; exact h
  | exit f n l => rw [step, function_exit_stats]; exact h
  | tick t c m =>
      show (((snapshotActive st.call_stack).foldl
        (fun m₂ f => dictAppend m₂ f (t, c, m)) st.function_stats).map Prod.fst).Nodup
      exact nodup_keys_foldl_dictAppend _ _ _ h

theorem runFrom_stats_nodup (target : String) :
    ∀ (evs : List Event) (st : ProfilerState),
      (st.function_stats.map Prod.fst).Nodup →
      ((runFrom target st evs).function_stats.map Prod.fst).Nodup := by
  intro evs
  induction evs with
  | nil => intro st h; exact h
  | cons e es ih =>
      intro st h
      rw [runFrom]
      exact ih _ (step_stats_nodup target st e h)

/-- Every key ever entered in CallCounters is a `mkFuncId` image. -/
def CountsOk (m : List (String × Nat)) : Prop :=
  ∀ k ∈ m.map Prod.fst, ∃ f n l, k = mkFuncId f n l

theorem countsOk_incrCount (m : List (String × Nat)) (f n : String) (l : Nat)
    (h : CountsOk m) : CountsOk (incrCount m (mkFuncId f n l)) := by
  intro k hk
  rcases (mem_keys_dictUpdate m (mkFuncId f n l) k 0 _).mp hk with h2 | rfl
  · exact h k h2
  · exact ⟨f, n, l, rfl⟩

theorem step_countsOk (target : String) (st : ProfilerState) (e : Event)
    (h : CountsOk st.call_counts) : CountsOk (step target st e).call_counts := by
  cases e with
  | exit f n l => rw [step, function_exit_counts]; exact h
  | tick t c m => rw [step, samplerTick_counts]; exact h
  | enter f n l =>
      rcases function_enter_cases target f n l st with ⟨he, _⟩ | ⟨he, _⟩
      · rw [step, he]; exact h
      · rw [step, he]
        exact countsOk_incrCount st.call_counts f n l h

theorem runFrom_countsOk (target : String) :
    ∀ (evs : List Event) (st : ProfilerState),
      CountsOk st.call_counts → CountsOk (runFrom target st evs).call_counts := by
  intro evs
  induction evs with
  | nil => intro st h; exact h
  | cons e es ih =>
      intro st h
      rw [runFrom]
      exact ih _ (step_countsOk target st e h)

/-- The sentinel has a nonempty captured series. -/
def MainSampled (st : ProfilerState) : Prop :=
  ∃ s, alookup st.function_stats "<main>" = some s ∧ s ≠ []

theorem mainSampled_dictAppend (m : List (String × List Sample)) (k : String) (v : Sample)
    (h : ∃ s, alookup m "<main>" = some s ∧ s ≠ []) :
    ∃ s, alookup (dictAppend m k v) "<main>" = some s ∧ s ≠ [] := by
  rcases h with ⟨s, hs, hne⟩
  by_cases hk : ("<main>" : String) = k
  · subst hk
    refine ⟨lookupD m "<main>" [] ++ [v], ?_, by simp⟩
    exact alookup_dictUpdate_self m "<main>" [] _
  · exact ⟨s, by rw [dictAppend, alookup_dictUpdate_ne m k "<main>" [] _ hk]; exact hs, hne⟩

theorem mainSampled_foldl_dictAppend (v : Sample) :
    ∀ (ks : List String) (m : List (String × List Sample)),
      (∃ s, alookup m "<main>" = some s ∧ s ≠ []) →
      ∃ s, alookup (ks.foldl (fun m₂ f => dictAppend m₂ f v) m) "<main>" = some s ∧ s ≠ [] := by
  intro ks
  induction ks with
  | nil => intro m h; exact h
  | cons k ks ih =>
      intro m h
      rw [List.foldl_cons]
      exact ih _ (mainSampled_dictAppend m k v h)

theorem mainSampled_step (target : String) (st : ProfilerState) (e : Event)
    (h : MainSampled st) : MainSampled (step target st e) := by
  cases e with
  | enter f n l => unfold MainSampled; rw [step, function_enter_stats]; exact h
  | exit f n l => unfold MainSampled; rw [step, function_exit_stats]; exact h
  | tick t c m =>
      show ∃ s, alookup ((snapshotActive st.call_stack).foldl
        (fun m₂ f => dictAppend m₂ f (t, c, m)) st.function_stats) "<main>" = some s ∧ s ≠ []
      exact mainSampled_foldl_dictAppend _ _ _ h

theorem mainSampled_runFrom (target : String) :
    ∀ (evs : List Event) (st : ProfilerState),
      MainSampled st → MainSampled (runFrom target st evs) := by
  intro evs
  induction evs with
  | nil => intro st h; exact h
  | cons e es ih =>
      intro st h
      rw [runFrom]
      exact ih _ (mainSampled_step target st e h)

/-- Did the monitor observe an empty call stack on some tick? -/
def isIdleTick (st : ProfilerState) : Event → Bool
  | .tick _ _ _ => st.call_stack.isEmpty
  | _ => false

/-- True when at least one tick of the replay happens while the call
stack is empty. -/
def observedIdle (target : String) : ProfilerState → List Event → Bool
  | _, [] => false
  | st, e :: es => isIdleTick st e || observedIdle target (step target st e) es

theorem mainSampled_of_idleTick (target : String) (st : ProfilerState) (e : Event)
    (h : isIdleTick st e = true) : MainSampled (step target st e) := by
  cases e with
  | enter f n l => cases h
  | exit f n l => cases h
  | tick t c m =>
      have hempty : st.call_stack = [] := by
        unfold isIdleTick at h
        exact List.isEmpty_iff.mp h
      show ∃ s, alookup ((snapshotActive st.call_stack).foldl
        (fun m₂ f => dictAppend m₂ f (t, c, m)) st.function_stats) "<main>" = some s ∧ s ≠ []
      rw [hempty]
      show ∃ s, alookup (dictAppend st.function_stats "<main>" (t, c, m)) "<main>"
        = some s ∧ s ≠ []
      refine ⟨lookupD st.function_stats "<main>" [] ++ [(t, c, m)], ?_, by simp⟩
      exact alookup_dictUpdate_self st.function_stats "<main>" [] _

theorem mainSampled_of_observedIdle (target : String) :
    ∀ (evs : List Event) (st : ProfilerState),
      observedIdle target st evs = true → MainSampled (runFrom target st evs) := by
  intro evs
  induction evs with
  | nil => intro st h; cases h
  | cons e es ih =>
      intro st h
      rw [observedIdle] at h
      rcases Bool.or_eq_true_iff.mp h with h1 | h2
      · rw [runFrom]
        exact mainSampled_runFrom target es _ (mainSampled_of_idleTick target st e h1)
      · rw [runFrom]
        exact ih _ h2

/-! ## The fields of a produced summary entry -/

theorem summaryEntry_fields (counts : List (String × Nat)) (id : String)
    (s0 : Sample) (rest : List Sample) :
    (summaryEntry counts id s0 rest).calls = lookupD counts id 0 ∧
    (summaryEntry counts id s0 rest).total_time
      = ((s0 :: rest).getLast (List.cons_ne_nil s0 rest)).1 - s0.1 ∧
    (summaryEntry counts id s0 rest).avg_cpu
      = pysum ((s0 :: rest).map (fun s => s.2.1)) / (((s0 :: rest).length : ℚ)) ∧
    (summaryEntry counts id s0 rest).avg_mem
      = pysum ((s0 :: rest).map (fun s => s.2.2)) / (((s0 :: rest).length : ℚ)) ∧
    (summaryEntry counts id s0 rest).max_cpu = pymax ((s0 :: rest).map (fun s => s.2.1)) ∧
    (summaryEntry counts id s0 rest).max_mem = pymax ((s0 :: rest).map (fun s => s.2.2)) := by
  unfold summaryEntry avgUpdate aggUpdate initAgg
  rw [if_pos (Nat.succ_pos rest.length)]
  refine ⟨rfl, by simp, ?_, ?_, rfl, rfl⟩
  · show (0 + pysum ((s0 :: rest).map (fun s => s.2.1))) / ((rest.length + 1 : Nat) : ℚ) = _
    rw [zero_add, List.length_cons]
  · show (0 + pysum ((s0 :: rest).map (fun s => s.2.2))) / ((rest.length + 1 : Nat) : ℚ) = _
    rw [zero_add, List.length_cons]

/-! ## Claim theorems -/

/-- C1 (counterexample): replaying a single filtered enter event for
`f` (so CallCounters has `a.py:f:1 ↦ 1`) with no sampling tick leaves
`a.py:f:1` with no captured samples, and the aggregated summary then
contains no entry at all for `a.py:f:1` — contradicting the claim that
it still appears with calls > 0 and zeroed timing fields. -/
theorem counter_only_function_missing_from_summary :
    counterVal (runFrom "a.py" initState [Event.enter "a.py" "f" 1]) "a.py:f:1" = 1 ∧
    alookup (get_aggregated_stats
      (runFrom "a.py" initState [Event.enter "a.py" "f" 1]).function_stats
      (runFrom "a.py" initState [Event.enter "a.py" "f" 1]).call_counts).1 "a.py:f:1"
      = none := by
  constructor <;> decide

/-- C1 (amended): a function identifier that has a positive entry in
CallCounters but no captured samples in FunctionSampleSeries is ABSENT
from the aggregated summary produced by `get_aggregated_stats` — it
silently vanishes rather than being reported with calls > 0 and zeroed
timing fields. -/
theorem counter_only_function_absent (fs : List (String × List Sample))
    (counts : List (String × Nat)) (id : String)
    (_hpos : 0 < lookupD counts id 0)
    (h : id ∉ fs.map Prod.fst) :
    alookup (get_aggregated_stats fs counts).1 id = none :=
  agg_master_not_mem fs counts id h

/-- Witness for the amended C1 at a concrete input. -/
theorem counter_only_function_absent_witness :
    alookup (get_aggregated_stats [] [("a.py:f:1", 1)]).1 "a.py:f:1" = none :=
  counter_only_function_absent [] [("a.py:f:1", 1)] "a.py:f:1" (by decide) (by decide)

/-- Modelled from the spec: the ordering the claim asserts for the
summary list — strictly larger span first; equal spans ordered by more
calls first; equal span and calls ordered by identifier ascending. -/
def specOrder (a b : String × AggEntry) : Prop :=
  b.2.total_time < a.2.total_time ∨
    (a.2.total_time = b.2.total_time ∧ b.2.calls < a.2.calls) ∨
    (a.2.total_time = b.2.total_time ∧ a.2.calls = b.2.calls ∧ a.1 ≤ b.1)

instance (a b : String × AggEntry) : Decidable (specOrder a b) := by
  unfold specOrder
  infer_instance

/-- The events of the C2 counterexample run: `f` entered once, `g`
entered twice with one matching exit, then a single idle-free tick, so
both functions have exactly one captured sample and span 0. -/
def evsTieBreak : List Event :=
  [Event.enter "a.py" "f" 1, Event.enter "a.py" "g" 2, Event.exit "a.py" "g" 2,
   Event.enter "a.py" "g" 2, Event.tick 0 0 0]

unseal List.merge List.mergeSort in
/-- C2 (counterexample): in the replay of `evsTieBreak` both functions
end with totalActiveSpan 0 while `g` has 2 calls and `f` only 1; the
sorted summary list keeps the stable insertion order `f` before `g`,
violating the claimed call-count tie-break, so the list is not ordered
by `specOrder`. -/
theorem sorted_summary_ignores_call_count :
    ¬ ((sortedStats (get_aggregated_stats
      (runFrom "a.py" initState evsTieBreak).function_stats
      (runFrom "a.py" initState evsTieBreak).call_counts).1).Pairwise specOrder) := by
  have hfs : (runFrom "a.py" initState evsTieBreak).function_stats
      = [("a.py:f:1", [(0, 0, 0)]), ("a.py:g:2", [(0, 0, 0)])] := by decide
  have hct : (runFrom "a.py" initState evsTieBreak).call_counts
      = [("a.py:f:1", 1), ("a.py:g:2", 2)] := by decide
  rw [hfs, hct]
  have hagg : (get_aggregated_stats
      [("a.py:f:1", [((0 : ℚ), (0 : ℚ), (0 : ℚ))]), ("a.py:g:2", [(0, 0, 0)])]
      [("a.py:f:1", 1), ("a.py:g:2", 2)]).1
      = [("a.py:f:1", { initAgg with calls := 1, first_seen := some 0 }),
         ("a.py:g:2", { initAgg with calls := 2, first_seen := some 0 })] := by
    simp [get_aggregated_stats, aggStep, aggUpdate, avgLoop, ddGet,
      avgUpdate, dictUpdate, keyEq, updEntry, alookup, lookupD, pysum, pymax, minInf, initAgg]
  rw [hagg]
  decide

/-- C2 (amended): the summary list handed to the Reporter is sorted
descending by `total_time` and is a permutation of the aggregated
summaries; the sort is stable, so entries already in the claimed order
(in particular ties) keep their relative insertion order — no
call-count or identifier tie-break is applied. -/
theorem sorted_summary_spec (stats : List (String × AggEntry)) :
    List.Perm (sortedStats stats) stats ∧
    (sortedStats stats).Pairwise
      (fun a b => b.2.total_time ≤ a.2.total_time) ∧
    (∀ a b, List.Sublist [a, b] stats → b.2.total_time ≤ a.2.total_time →
      List.Sublist [a, b] (sortedStats stats)) := by
  have htrans : ∀ (a b c : String × AggEntry),
      (fun x y : String × AggEntry =>
        decide (-x.2.total_time ≤ -y.2.total_time)) a b = true →
      (fun x y : String × AggEntry =>
        decide (-x.2.total_time ≤ -y.2.total_time)) b c = true →
      (fun x y : String × AggEntry =>
        decide (-x.2.total_time ≤ -y.2.total_time)) a c = true := by
    intro a b c hab hbc
    simp only [decide_eq_true_eq] at hab hbc ⊢
    exact le_trans hab hbc
  have htotal : ∀ (a b : String × AggEntry),
      ((fun x y : String × AggEntry =>
        decide (-x.2.total_time ≤ -y.2.total_time)) a b ||
       (fun x y : String × AggEntry =>
        decide (-x.2.total_time ≤ -y.2.total_time)) b a) = true := by
    intro a b
    simp only [Bool.or_eq_true, decide_eq_true_eq]
    exact le_total _ _
  refine ⟨List.mergeSort_perm stats _, ?_, ?_⟩
  · have hs := List.sorted_mergeSort htrans htotal stats
    refine hs.imp ?_
    intro a b hab
    simp only [decide_eq_true_eq] at hab
    exact neg_le_neg_iff.mp hab
  · intro a b hsub hle
    exact List.pair_sublist_mergeSort htrans htotal
      (by simp only [decide_eq_true_eq]; exact neg_le_neg hle) hsub

/-- Witness for the amended C2 at a concrete input. -/
theorem sorted_summary_spec_witness :
    List.Perm (sortedStats [("a", initAgg), ("b", initAgg)])
      [("a", initAgg), ("b", initAgg)] ∧
    List.Sublist [("a", initAgg), ("b", initAgg)]
      (sortedStats [("a", initAgg), ("b", initAgg)]) :=
  ⟨(sorted_summary_spec [("a", initAgg), ("b", initAgg)]).1,
    (sorted_summary_spec [("a", initAgg), ("b", initAgg)]).2.2 ("a", initAgg) ("b", initAgg)
      (List.Sublist.refl _) (le_refl _)⟩

theorem removeTailOcc_last (a b : List String) (x : String) (hb : x ∉ b) :
    removeTailOcc (a ++ x :: b) x = a ++ b := by
  unfold removeTailOcc
  rw [List.reverse_append, List.reverse_cons,
    List.erase_append_left a.reverse
      (List.mem_append_right _ (List.mem_singleton_self x)),
    List.erase_append_right [x] (by simpa using hb),
    List.erase_cons_head]
  simp

theorem function_exit_eq_of_pass (target filename funcName : String) (lineno : Nat)
    (st : ProfilerState) (hf : pyStartsWith filename target = true)
    (hm : funcName ≠ "<module>")
    (hmem : mkFuncId filename funcName lineno ∈ st.call_stack) :
    function_exit target st filename funcName lineno
      = { st with
          call_stack := removeTailOcc st.call_stack (mkFuncId filename funcName lineno) } := by
  unfold function_exit
  rw [if_neg (by simp [hf]), if_neg hm]
  show (if mkFuncId filename funcName lineno ∈ st.call_stack then
    { st with call_stack := removeTailOcc st.call_stack (mkFuncId filename funcName lineno) }
    else st) = _
  exact if_pos hmem

/-- C3: an exit event whose identifier occurs on the call stack removes
exactly the tail-most (most recently pushed) occurrence, leaving all
other entries and their relative order — as well as CallCounters and
FunctionSampleSeries — unchanged. -/
theorem exit_removes_tailmost (target filename funcName : String) (lineno : Nat)
    (st : ProfilerState) (a b : List String)
    (hf : pyStartsWith filename target = true) (hm : funcName ≠ "<module>")
    (hstack : st.call_stack = a ++ mkFuncId filename funcName lineno :: b)
    (hb : mkFuncId filename funcName lineno ∉ b) :
    (function_exit target st filename funcName lineno).call_stack = a ++ b ∧
    (function_exit target st filename funcName lineno).call_counts = st.call_counts ∧
    (function_exit target st filename funcName lineno).function_stats
      = st.function_stats := by
  refine ⟨?_, function_exit_counts target filename funcName lineno st,
    function_exit_stats target filename funcName lineno st⟩
  have hmem : mkFuncId filename funcName lineno ∈ st.call_stack := by
    rw [hstack]
    exact List.mem_append_right _ (List.mem_cons_self _ _)
  rw [function_exit_eq_of_pass target filename funcName lineno st hf hm hmem]
  show removeTailOcc st.call_stack (mkFuncId filename funcName lineno) = a ++ b
  rw [hstack]
  exact removeTailOcc_last a b _ hb

/-- Witness for C3 at a concrete input. -/
theorem exit_removes_tailmost_witness :
    (function_exit "s.py" ⟨[], ["s.py:f:1"], [], []⟩ "s.py" "f" 1).call_stack = [] ∧
    (function_exit "s.py" ⟨[], ["s.py:f:1"], [], []⟩ "s.py" "f" 1).call_counts = [] ∧
    (function_exit "s.py" ⟨[], ["s.py:f:1"], [], []⟩ "s.py" "f" 1).function_stats = [] := by
  have h := exit_removes_tailmost "s.py" "s.py" "f" 1 ⟨[], ["s.py:f:1"], [], []⟩ [] []
    (by decide) (by decide) (by decide) (by decide)
  simpa using h

/-- C4: an exit event whose identifier is not on the call stack is a
complete no-op — the profiler state (call stack, counters, sample
series, log) is returned unchanged, and no error is possible. -/
theorem unmatched_exit_noop (target filename funcName : String) (lineno : Nat)
    (st : ProfilerState)
    (h : mkFuncId filename funcName lineno ∉ st.call_stack) :
    function_exit target st filename funcName lineno = st := by
  rcases function_exit_cases target filename funcName lineno st with he | ⟨_, hmem⟩
  · exact he
  · exact absurd hmem h

/-- Witness for C4 at a concrete input. -/
theorem unmatched_exit_noop_witness :
    function_exit "t" initState "t/x.py" "f" 1 = initState :=
  unmatched_exit_noop "t" "t/x.py" "f" 1 initState (by decide)

/-- C5: the Sampler's per-tick snapshot of the call stack has set
semantics — for a nonempty stack it is duplicate-free and contains
exactly the identifiers on the stack; for an empty stack it is the
single sentinel marker list. -/
theorem snapshot_set_semantics (stack : List String) :
    (stack = [] → snapshotActive stack = ["<main>"]) ∧
    (stack ≠ [] →
      (snapshotActive stack).Nodup ∧ ∀ x, x ∈ snapshotActive stack ↔ x ∈ stack) := by
  constructor
  · intro h
    rw [h]
    rfl
  · intro h
    have hne : stack.isEmpty = false := by
      cases stack with
      | nil => exact absurd rfl h
      | cons a l => rfl
    unfold snapshotActive
    rw [hne]
    show (stack.dedup).Nodup ∧ ∀ x, x ∈ stack.dedup ↔ x ∈ stack
    exact ⟨List.nodup_dedup stack, fun x => List.mem_dedup⟩

/-- Witness for C5 at concrete inputs. -/
theorem snapshot_set_semantics_witness :
    snapshotActive [] = ["<main>"] ∧
    (snapshotActive ["a", "a"]).Nodup ∧
    ("a" ∈ snapshotActive ["a", "a"] ↔ "a" ∈ ["a", "a"]) :=
  ⟨(snapshot_set_semantics []).1 rfl,
    ((snapshot_set_semantics ["a", "a"]).2 (by decide)).1,
    ((snapshot_set_semantics ["a", "a"]).2 (by decide)).2 "a"⟩

/-- C6: after replaying any event sequence from a fresh profiler,
CallCounters holds for every identifier exactly the number of enter
events that passed the source-path and module-frame filters and
produced that identifier; moreover no single event (exit events and
ticks included) ever decreases any counter. -/
theorem counters_count_filtered_enters (target id : String) (evs : List Event) :
    counterVal (runFrom target initState evs) id = countEnters target id evs ∧
    ∀ (st : ProfilerState) (e : Event),
      counterVal st id ≤ counterVal (step target st e) id := by
  constructor
  · have h := counterVal_runFrom target id evs initState
    have h0 : counterVal initState id = 0 := rfl
    rw [h, h0, Nat.zero_add]
  · intro st e
    rw [counterVal_step]
    cases isEnterFor target id e
    · simp
    · simp

/-- C7: for every event sequence, the multiset of identifiers on the
profiler's CallStack after replay equals the multiset produced by the
naive reference stack simulation (push on enter, remove one occurrence
on exit, filtered frames ignored). -/
theorem call_stack_refines_naive (target : String) (evs : List Event) :
    ((runFrom target initState evs).call_stack : Multiset String)
      = (naiveStack target evs [] : Multiset String) :=
  Multiset.coe_eq_coe.mpr (runFrom_stack_perm target evs initState [] (List.Perm.refl []))

/-- C8: for a function with at least one captured sample, the summary
entry produced by `get_aggregated_stats` satisfies: totalActiveSpan is
the last sample's timestamp minus the first's (0 with exactly one
sample); the averages are the arithmetic means of the function's own
cpu and memory values; the peaks are maxima of the same values. -/
theorem summary_fields_correct (fs : List (String × List Sample))
    (counts : List (String × Nat)) (id : String) (s0 : Sample) (rest : List Sample)
    (hnd : (fs.map Prod.fst).Nodup)
    (h : alookup fs id = some (s0 :: rest)) :
    ∃ e, alookup (get_aggregated_stats fs counts).1 id = some e ∧
      e.total_time = ((s0 :: rest).getLast (List.cons_ne_nil s0 rest)).1 - s0.1 ∧
      (rest = [] → e.total_time = 0) ∧
      e.avg_cpu = ((s0 :: rest).map (fun s => s.2.1)).sum / ((s0 :: rest).length : ℚ) ∧
      e.avg_mem = ((s0 :: rest).map (fun s => s.2.2)).sum / ((s0 :: rest).length : ℚ) ∧
      e.max_cpu ∈ (s0 :: rest).map (fun s => s.2.1) ∧
      (∀ v ∈ (s0 :: rest).map (fun s => s.2.1), v ≤ e.max_cpu) ∧
      e.max_mem ∈ (s0 :: rest).map (fun s => s.2.2) ∧
      (∀ v ∈ (s0 :: rest).map (fun s => s.2.2), v ≤ e.max_mem) := by
  refine ⟨summaryEntry counts id s0 rest, agg_master_cons fs counts id s0 rest hnd h,
    ?_, ?_, ?_, ?_, ?_, ?_, ?_, ?_⟩
  · exact (summaryEntry_fields counts id s0 rest).2.1
  · intro hrest
    subst hrest
    rw [(summaryEntry_fields counts id s0 []).2.1]
    show ([s0].getLast (List.cons_ne_nil s0 [])).1 - s0.1 = 0
    rw [List.getLast_singleton]
    exact sub_self _
  · rw [(summaryEntry_fields counts id s0 rest).2.2.1, pysum_eq_sum]
  · rw [(summaryEntry_fields counts id s0 rest).2.2.2.1, pysum_eq_sum]
  · rw [(summaryEntry_fields counts id s0 rest).2.2.2.2.1]
    show pymax (s0.2.1 :: rest.map (fun s => s.2.1)) ∈ _
    have := (pymax_spec (rest.map (fun s => s.2.1)) s0.2.1).1
    simpa using this
  · intro v hv
    rw [(summaryEntry_fields counts id s0 rest).2.2.2.2.1]
    show v ≤ pymax (s0.2.1 :: rest.map (fun s => s.2.1))
    exact (pymax_spec (rest.map (fun s => s.2.1)) s0.2.1).2 v (by simpa using hv)
  · rw [(summaryEntry_fields counts id s0 rest).2.2.2.2.2]
    show pymax (s0.2.2 :: rest.map (fun s => s.2.2)) ∈ _
    have := (pymax_spec (rest.map (fun s => s.2.2)) s0.2.2).1
    simpa using this
  · intro v hv
    rw [(summaryEntry_fields counts id s0 rest).2.2.2.2.2]
    show v ≤ pymax (s0.2.2 :: rest.map (fun s => s.2.2))
    exact (pymax_spec (rest.map (fun s => s.2.2)) s0.2.2).2 v (by simpa using hv)

/-- Witness for C8 at a concrete input (two samples). -/
theorem summary_fields_correct_witness :
    ∃ e, alookup (get_aggregated_stats [("a.py:f:1", [((0 : ℚ), (0 : ℚ), (0 : ℚ)), (0, 0, 0)])]
        []).1 "a.py:f:1" = some e ∧
      e.total_time = (([((0 : ℚ), (0 : ℚ), (0 : ℚ)), (0, 0, 0)]).getLast
        (List.cons_ne_nil _ _)).1 - (((0 : ℚ), (0 : ℚ), (0 : ℚ)) : Sample).1 ∧
      (([((0 : ℚ), (0 : ℚ), (0 : ℚ))] : List Sample) = [] → e.total_time = 0) ∧
      e.avg_cpu = (([((0 : ℚ), (0 : ℚ), (0 : ℚ)), (0, 0, 0)]).map
        (fun s => s.2.1)).sum / (([((0 : ℚ), (0 : ℚ), (0 : ℚ)), (0, 0, 0)]).length : ℚ) ∧
      e.avg_mem = (([((0 : ℚ), (0 : ℚ), (0 : ℚ)), (0, 0, 0)]).map
        (fun s => s.2.2)).sum / (([((0 : ℚ), (0 : ℚ), (0 : ℚ)), (0, 0, 0)]).length : ℚ) ∧
      e.max_cpu ∈ ([((0 : ℚ), (0 : ℚ), (0 : ℚ)), (0, 0, 0)]).map (fun s => s.2.1) ∧
      (∀ v ∈ ([((0 : ℚ), (0 : ℚ), (0 : ℚ)), (0, 0, 0)]).map (fun s => s.2.1),
        v ≤ e.max_cpu) ∧
      e.max_mem ∈ ([((0 : ℚ), (0 : ℚ), (0 : ℚ)), (0, 0, 0)]).map (fun s => s.2.2) ∧
      (∀ v ∈ ([((0 : ℚ), (0 : ℚ), (0 : ℚ)), (0, 0, 0)]).map (fun s => s.2.2),
        v ≤ e.max_mem) :=
  summary_fields_correct [("a.py:f:1", [(0, 0, 0), (0, 0, 0)])] [] "a.py:f:1"
    (0, 0, 0) [(0, 0, 0)] (by decide) (by decide)

/-- C9: aggregation is idempotent and side-effect free — running
`get_aggregated_stats` leaves FunctionSampleSeries exactly as it was
(CallCounters is only read through non-mutating `.get`), and running it
again over the state it leaves behind yields the identical summary. -/
theorem aggregation_idempotent (fs : List (String × List Sample))
    (counts : List (String × Nat)) :
    (get_aggregated_stats fs counts).2 = fs ∧
    (get_aggregated_stats (get_aggregated_stats fs counts).2 counts).1
      = (get_aggregated_stats fs counts).1 := by
  refine ⟨getAggStats_preserves_fs fs counts, ?_⟩
  rw [getAggStats_preserves_fs fs counts]

/-- C10: whenever some sampling tick of a run observes an empty call
stack, the aggregated summary contains an entry for the sentinel
identifier `<main>` whose calls field is 0 (no enter event can ever
produce the sentinel, as every real identifier contains a colon), while
its span, average and peak fields are computed from the idle ticks'
samples (the peaks stated as membership plus upper bound, i.e. as the
maxima of the idle samples' cpu and memory values). -/
theorem idle_sentinel_reported (target : String) (evs : List Event)
    (h : observedIdle target initState evs = true) :
    ∃ s0 rest e,
      alookup (runFrom target initState evs).function_stats "<main>" = some (s0 :: rest) ∧
      alookup (get_aggregated_stats (runFrom target initState evs).function_stats
        (runFrom target initState evs).call_counts).1 "<main>" = some e ∧
      e.calls = 0 ∧
      e.total_time = ((s0 :: rest).getLast (List.cons_ne_nil s0 rest)).1 - s0.1 ∧
      e.avg_cpu = ((s0 :: rest).map (fun s => s.2.1)).sum / ((s0 :: rest).length : ℚ) ∧
      e.avg_mem = ((s0 :: rest).map (fun s => s.2.2)).sum / ((s0 :: rest).length : ℚ) ∧
      e.max_cpu ∈ (s0 :: rest).map (fun s => s.2.1) ∧
      (∀ v ∈ (s0 :: rest).map (fun s => s.2.1), v ≤ e.max_cpu) ∧
      e.max_mem ∈ (s0 :: rest).map (fun s => s.2.2) ∧
      (∀ v ∈ (s0 :: rest).map (fun s => s.2.2), v ≤ e.max_mem) := by
  rcases mainSampled_of_observedIdle target evs initState h with ⟨s, hs, hne⟩
  obtain ⟨s0, rest, rfl⟩ : ∃ s0 rest, s = s0 :: rest := by
    cases s with
    | nil => exact absurd rfl hne
    | cons s0 rest => exact ⟨s0, rest, rfl⟩
  have hnd : ((runFrom target initState evs).function_stats.map Prod.fst).Nodup :=
    runFrom_stats_nodup target evs initState List.nodup_nil
  have hmaster := agg_master_cons (runFrom target initState evs).function_stats
    (runFrom target initState evs).call_counts "<main>" s0 rest hnd hs
  have hcounts : CountsOk (runFrom target initState evs).call_counts :=
    runFrom_countsOk target evs initState (fun k hk => absurd hk (List.not_mem_nil k))
  have hmain_not : "<main>" ∉ (runFrom target initState evs).call_counts.map Prod.fst := by
    intro hm
    rcases hcounts "<main>" hm with ⟨f, n, l, hfnl⟩
    exact mkFuncId_ne_main f n l hfnl.symm
  have hzero : lookupD (runFrom target initState evs).call_counts "<main>" 0 = 0 := by
    rw [lookupD, (alookup_eq_none_iff _ _).mpr hmain_not]
    rfl
  refine ⟨s0, rest, summaryEntry (runFrom target initState evs).call_counts "<main>" s0 rest,
    hs, hmaster, ?_, ?_, ?_, ?_, ?_, ?_, ?_, ?_⟩
  · rw [(summaryEntry_fields _ "<main>" s0 rest).1, hzero]
  · exact (summaryEntry_fields _ "<main>" s0 rest).2.1
  · rw [(summaryEntry_fields _ "<main>" s0 rest).2.2.1, pysum_eq_sum]
  · rw [(summaryEntry_fields _ "<main>" s0 rest).2.2.2.1, pysum_eq_sum]
  · rw [(summaryEntry_fields _ "<main>" s0 rest).2.2.2.2.1]
    show pymax (s0.2.1 :: rest.map (fun s => s.2.1)) ∈ _
    have := (pymax_spec (rest.map (fun s => s.2.1)) s0.2.1).1
    simpa using this
  · intro v hv
    rw [(summaryEntry_fields _ "<main>" s0 rest).2.2.2.2.1]
    show v ≤ pymax (s0.2.1 :: rest.map (fun s => s.2.1))
    exact (pymax_spec (rest.map (fun s => s.2.1)) s0.2.1).2 v (by simpa using hv)
  · rw [(summaryEntry_fields _ "<main>" s0 rest).2.2.2.2.2]
    show pymax (s0.2.2 :: rest.map (fun s => s.2.2)) ∈ _
    have := (pymax_spec (rest.map (fun s => s.2.2)) s0.2.2).1
    simpa using this
  · intro v hv
    rw [(summaryEntry_fields _ "<main>" s0 rest).2.2.2.2.2]
    show v ≤ pymax (s0.2.2 :: rest.map (fun s => s.2.2))
    exact (pymax_spec (rest.map (fun s => s.2.2)) s0.2.2).2 v (by simpa using hv)

/-- Witness for C10 at a concrete input: a single idle tick. -/
theorem idle_sentinel_reported_witness :
    ∃ s0 rest e,
      alookup (runFrom "t" initState [Event.tick 0 0 0]).function_stats "<main>"
        = some (s0 :: rest) ∧
      alookup (get_aggregated_stats (runFrom "t" initState [Event.tick 0 0 0]).function_stats
        (runFrom "t" initState [Event.tick 0 0 0]).call_counts).1 "<main>" = some e ∧
      e.calls = 0 ∧
      e.total_time = ((s0 :: rest).getLast (List.cons_ne_nil s0 rest)).1 - s0.1 ∧
      e.avg_cpu = ((s0 :: rest).map (fun s => s.2.1)).sum / ((s0 :: rest).length : ℚ) ∧
      e.avg_mem = ((s0 :: rest).map (fun s => s.2.2)).sum / ((s0 :: rest).length : ℚ) ∧
      e.max_cpu ∈ (s0 :: rest).map (fun s => s.2.1) ∧
      (∀ v ∈ (s0 :: rest).map (fun s => s.2.1), v ≤ e.max_cpu) ∧
      e.max_mem ∈ (s0 :: rest).map (fun s => s.2.2) ∧
      (∀ v ∈ (s0 :: rest).map (fun s => s.2.2), v ≤ e.max_mem) :=
  idle_sentinel_reported "t" [Event.tick 0 0 0] (by decide)
